import Mathlib

/-!
Shallow embedding of the Bitcoin swap-script core of the bullbitcoin
rnd library (`src/swaps/bitcoin.rs`, `src/network/esplora.rs`,
`src/network/electrum.rs`, `src/util/secrets.rs`), together with proofs
of the specification claims about it.

Modelling conventions:
* machine integers are `Nat` (with explicit bounds where overflow
  matters); bytes are `Fin 256`;
* a Rust panic (debug-build arithmetic overflow, `expect`, `unwrap`)
  is modelled by the distinguished error constructor `Err.panic`;
* scripts are modelled at the level rust-bitcoin's instruction iterator
  presents them: a list of `Instr` (opcode or data push);
* secp256k1 point arithmetic (MuSig2 key aggregation, taproot tweaking,
  signatures, sighashes) is abstracted into a `SecpModel` parameter; the
  control flow around it is translated literally from the source.
-/

abbrev Byte := Fin 256

def byteOf (n : Nat) : Byte := ⟨n % 256, Nat.mod_lt _ (by omega)⟩

/-- Error type of the library, restricted to the variants the embedded
functions construct; `panic` additionally models a Rust panic (which is
not a library `Error`, but an abort of the computation). -/
inductive Err where
  | protocol (msg : String)
  | generic (msg : String)
  | taproot (msg : String)
  | address (msg : String)
  | esplora (msg : String)
  | hex (msg : String)
  | secp (msg : String)
  | panic (msg : String)
  deriving DecidableEq, Repr

/-- One decoded script instruction, as produced by rust-bitcoin's
`Script::instructions()` iterator: data pushes (`OP_PUSHBYTES_0` ..
`OP_PUSHBYTES_75` and `OP_PUSHDATA`, including the empty push for the
byte `0x00`) and all other opcodes. -/
inductive Instr where
  | op (code : Nat)
  | push (bytes : List Byte)
  deriving DecidableEq, Repr

def OP_CHECKSIGVERIFY : Nat := 0xad
def OP_CLTV : Nat := 0xb1
def OP_HASH160 : Nat := 0xa9
def OP_EQUALVERIFY : Nat := 0x88
def OP_CHECKSIG : Nat := 0xac
def OP_SIZE : Nat := 0x82

/-- Accumulation loop of `bytes_to_u32_little_endian`
(src/swaps/bitcoin.rs line 516): `result |= (byte as u32) << (8 * i)`.
A shift amount reaching the `u32` width is an arithmetic-overflow panic
in a debug build, modelled by `Err.panic`. -/
def bytesToU32Go (result : Nat) (i : Nat) : List Byte → Except Err Nat
  | [] => .ok result
  | b :: rest =>
    if 32 ≤ 8 * i then .error (.panic "attempt to shift left with overflow")
    else bytesToU32Go (result ||| (b.val <<< (8 * i))) (i + 1) rest

def bytes_to_u32_little_endian (bytes : List Byte) : Except Err Nat :=
  bytesToU32Go 0 0 bytes

/-- The value the accumulation loop computes when no shift overflows
(used under the `len < 5` guard of `create_refund`; the lemma
`bytes_to_u32_eq_leVal` proves the two agree there). -/
def leValGo (result i : Nat) : List Byte → Nat
  | [] => result
  | b :: rest => leValGo (result ||| (b.val <<< (8 * i))) (i + 1) rest

def leVal (bytes : List Byte) : Nat := leValGo 0 0 bytes

/-- Minimal little-endian byte encoding of a positive integer (the
extraction loop of rust-bitcoin's `build_scriptint`), written with a
fuel counter so that it reduces definitionally; `natLEBytes_eq`
recovers the natural recursion. -/
def natLEBytesGo : Nat → Nat → List Byte
  | _, 0 => []
  | n, fuel + 1 => if n = 0 then [] else byteOf n :: natLEBytesGo (n / 256) fuel

def natLEBytes (n : Nat) : List Byte := natLEBytesGo n n

/-- rust-bitcoin `build_scriptint` for a positive integer: minimal
little-endian bytes, with a zero sign byte appended when the top bit of
the final byte is set. -/
def scriptIntEncode (n : Nat) : List Byte :=
  let b := natLEBytes n
  match b.getLast? with
  | none => b
  | some last => if 128 ≤ last.val then b ++ [byteOf 0] else b

/-- rust-bitcoin `Builder::push_int` restricted to the non-negative
values a `LockTime` consensus `u32` takes, seen through the instruction
iterator: `0` becomes the empty push (`OP_0` is the empty
`OP_PUSHBYTES_0`), `1..=16` become the `OP_PUSHNUM` opcodes (which the
iterator reports as `Instruction::Op`), anything else a byte push of the
script-int encoding. -/
def pushInt (n : Nat) : Instr :=
  if 1 ≤ n ∧ n ≤ 16 then .op (80 + n)
  else if n = 0 then .push []
  else .push (scriptIntEncode n)

/-- `Builder::push_lock_time` pushes the consensus `u32` with `push_int`. -/
def pushLockTime (n : Nat) : Instr := pushInt n

inductive SwapType where
  | submarine
  | reverseSubmarine
  | chain
  deriving DecidableEq, Repr

inductive Side where
  | lockup
  | claim
  deriving DecidableEq, Repr

inductive SwapTxKind where
  | claim
  | refund
  deriving DecidableEq, Repr

/-- The `Chain` tag of `src/network/mod.rs`. -/
inductive Chain where
  | bitcoin
  | bitcoinTestnet
  | bitcoinRegtest
  | liquid
  | liquidTestnet
  | liquidRegtest
  deriving DecidableEq, Repr

/-- `bitcoin::Network`, restricted to the variants the embedded code maps to. -/
inductive Network where
  | bitcoin
  | testnet
  | regtest
  deriving DecidableEq, Repr

/-- A 32-byte string: the serialization of an x-only public key.  An
`XOnlyPublicKey` is identified with its 32-byte serialization; whether
those bytes are a valid curve point is abstracted away (the model's
`from_slice` only checks the length, which only enlarges the domain). -/
def XOnly : Type := {l : List Byte // l.length = 32}

instance : DecidableEq XOnly := fun a b => by
  unfold XOnly
  infer_instance

/-- A 20-byte string: a `hash160::Hash`. -/
def Hash160 : Type := {l : List Byte // l.length = 20}

instance : DecidableEq Hash160 := fun a b => by
  unfold Hash160
  infer_instance

/-- `bitcoin::PublicKey`: the secp256k1 point is abstracted to an opaque
tag `inner` (all the embedded code does with it is hand it to MuSig key
aggregation), together with its x-only projection `xo` (what
`push_x_only_key` serializes). -/
structure PublicKey where
  inner : Nat
  xo : XOnly
  deriving DecidableEq

/-- A segwit `bitcoin::Address`: network, witness version and witness
program bytes.  The embedded code only ever produces taproot addresses
(`witver = 1`, 32-byte program) and only ever consumes the final data
push of an address `script_pubkey`, which for every segwit address is
the witness program. -/
structure Address where
  network : Network
  witver : Nat
  program : List Byte
  deriving DecidableEq

/-- The `script_pubkey` of a segwit address, as an instruction list: the
version opcode (`OP_0` is the empty push) followed by the program push. -/
def Address.spkInstrs (a : Address) : List Instr :=
  [(if a.witver = 0 then Instr.push [] else Instr.op (80 + a.witver)),
   Instr.push a.program]

/-- `Address::p2tr_tweaked`: the taproot address for a tweaked output
key on a network. -/
def Address.p2tr_tweaked (outputKey : List Byte) (network : Network) : Address :=
  ⟨network, 1, outputKey⟩

/-- `XOnlyPublicKey::from_slice`: requires exactly 32 bytes (curve-point
validity is abstracted away, see `XOnly`). -/
def xonlyFromSlice (b : List Byte) : Option (List Byte) :=
  if b.length = 32 then some b else none

/-- The `BtcSwapScript` struct (src/swaps/bitcoin.rs line 49). -/
structure BtcSwapScript where
  swap_type : SwapType
  side : Option Side
  funding_addrs : Option Address
  hashlock : Hash160
  receiver_pubkey : PublicKey
  locktime : Nat
  sender_pubkey : PublicKey
  deriving DecidableEq

/-- `BtcSwapScript::claim_script` (src/swaps/bitcoin.rs line 275). -/
def BtcSwapScript.claim_script (s : BtcSwapScript) : List Instr :=
  match s.swap_type with
  | .submarine =>
    [.op OP_HASH160, .push s.hashlock.val, .op OP_EQUALVERIFY,
     .push s.receiver_pubkey.xo.val, .op OP_CHECKSIG]
  | .reverseSubmarine | .chain =>
    [.op OP_SIZE, pushInt 32, .op OP_EQUALVERIFY, .op OP_HASH160,
     .push s.hashlock.val, .op OP_EQUALVERIFY,
     .push s.receiver_pubkey.xo.val, .op OP_CHECKSIG]

/-- `BtcSwapScript::refund_script` (src/swaps/bitcoin.rs line 298):
the same for all swap types. -/
def BtcSwapScript.refund_script (s : BtcSwapScript) : List Instr :=
  [.push s.sender_pubkey.xo.val, .op OP_CHECKSIGVERIFY,
   pushLockTime s.locktime, .op OP_CLTV]

/-- `BtcSwapScript::musig_keyagg_cache` (src/swaps/bitcoin.rs line 127),
reduced to the ordered array of public keys handed to
`MusigKeyAggCache::new`. -/
def BtcSwapScript.musig_keyagg_cache (s : BtcSwapScript) : List Nat :=
  match s.swap_type, s.side with
  | .reverseSubmarine, _ | .chain, some .claim =>
    [s.sender_pubkey.inner, s.receiver_pubkey.inner]
  | .submarine, _ | .chain, _ =>
    [s.receiver_pubkey.inner, s.sender_pubkey.inner]

/-- The hashlock extraction loop shared verbatim by
`submarine_from_swap_resp`, `reverse_from_swap_resp` and
`chain_from_swap_resp` (src/swaps/bitcoin.rs lines 78, 156, 221): every
push of exactly 20 bytes overwrites the `hashlock` variable, every other
instruction is skipped. -/
def extractHashlockGo (acc : Option Hash160) : List Instr → Option Hash160
  | [] => acc
  | .push b :: rest =>
    if h : b.length = 20 then extractHashlockGo (some ⟨b, h⟩) rest
    else extractHashlockGo acc rest
  | .op _ :: rest => extractHashlockGo acc rest

def extractHashlock (claimLeaf : List Instr) : Option Hash160 :=
  extractHashlockGo none claimLeaf

/-- The timelock extraction loop shared verbatim by the three parsing
constructors (src/swaps/bitcoin.rs lines 91, 169, 234): `last_op` tracks
the most recent non-push opcode (initially `OP_0`), and every push seen
while `last_op = OP_CHECKSIGVERIFY` overwrites the timelock with
`bytes_to_u32_little_endian` of its bytes — with no bound on the push
length, so a push of five or more bytes panics (see `bytesToU32Go`). -/
def extractTimelockGo (lastOp : Nat) (acc : Option Nat) :
    List Instr → Except Err (Option Nat)
  | [] => .ok acc
  | .op o :: rest => extractTimelockGo o acc rest
  | .push b :: rest =>
    if lastOp = OP_CHECKSIGVERIFY then
      match bytes_to_u32_little_endian b with
      | .ok v => extractTimelockGo lastOp (some v) rest
      | .error e => .error e
    else extractTimelockGo lastOp acc rest

def extractTimelock (refundLeaf : List Instr) : Except Err (Option Nat) :=
  extractTimelockGo 0 none refundLeaf

/-- `BtcSwapScript::submarine_from_swap_resp` (src/swaps/bitcoin.rs line
63).  The hex decoding of the two leaves and the parsing of the lockup
address string happen upstream of the embedded logic: the function takes
the decoded instruction lists and the parsed address. -/
def submarine_from_swap_resp (claimLeaf refundLeaf : List Instr)
    (address : Address) (claim_public_key our_pubkey : PublicKey) :
    Except Err BtcSwapScript := do
  let hashlock := extractHashlock claimLeaf
  let timelock ← extractTimelock refundLeaf
  let hashlock ← match hashlock with
    | some h => pure h
    | none => throw (Err.protocol "No hashlock provided")
  let timelock ← match timelock with
    | some t => pure t
    | none => throw (Err.protocol "No timelock provided")
  pure { swap_type := .submarine
         side := none
         funding_addrs := some address
         hashlock := hashlock
         receiver_pubkey := claim_public_key
         locktime := timelock
         sender_pubkey := our_pubkey }

/-- `BtcSwapScript::reverse_from_swap_resp` (src/swaps/bitcoin.rs line
142), same extraction loops, with our key on the receiver side. -/
def reverse_from_swap_resp (claimLeaf refundLeaf : List Instr)
    (lockup_address : Address) (refund_public_key our_pubkey : PublicKey) :
    Except Err BtcSwapScript := do
  let hashlock := extractHashlock claimLeaf
  let timelock ← extractTimelock refundLeaf
  let hashlock ← match hashlock with
    | some h => pure h
    | none => throw (Err.protocol "No hashlock provided")
  let timelock ← match timelock with
    | some t => pure t
    | none => throw (Err.protocol "No timelock provided")
  pure { swap_type := .reverseSubmarine
         side := none
         funding_addrs := some lockup_address
         hashlock := hashlock
         receiver_pubkey := our_pubkey
         locktime := timelock
         sender_pubkey := refund_public_key }

/-- `BtcSwapScript::chain_from_swap_resp` (src/swaps/bitcoin.rs line
206), same extraction loops, key roles selected by `side`. -/
def chain_from_swap_resp (side : Side) (claimLeaf refundLeaf : List Instr)
    (lockup_address : Address) (server_public_key our_pubkey : PublicKey) :
    Except Err BtcSwapScript := do
  let hashlock := extractHashlock claimLeaf
  let timelock ← extractTimelock refundLeaf
  let hashlock ← match hashlock with
    | some h => pure h
    | none => throw (Err.protocol "No hashlock provided")
  let timelock ← match timelock with
    | some t => pure t
    | none => throw (Err.protocol "No timelock provided")
  let keys := match side with
    | .lockup => (our_pubkey, server_public_key)
    | .claim => (server_public_key, our_pubkey)
  pure { swap_type := .chain
         side := some side
         funding_addrs := some lockup_address
         hashlock := hashlock
         receiver_pubkey := keys.2
         locktime := timelock
         sender_pubkey := keys.1 }

structure OutPoint where
  txid : Nat
  vout : Nat
  deriving DecidableEq, Repr

def OutPoint.new (txid vout : Nat) : OutPoint := ⟨txid, vout⟩

structure TxOut where
  value : Nat
  script_pubkey : List Instr
  deriving DecidableEq, Repr

structure TxIn where
  previous_output : OutPoint
  script_sig : List Instr
  sequence : Nat
  witness : List (List Byte)
  deriving DecidableEq, Repr

/-- A `bitcoin::Transaction`.  `compute_txid` (the double-SHA256 of the
serialization, injective in reality) is abstracted into the `txid`
field; carrying it as data only enlarges the set of behaviours. -/
structure Transaction where
  version : Nat
  lock_time : Nat
  input : List TxIn
  output : List TxOut
  txid : Nat
  deriving DecidableEq, Repr

def Transaction.compute_txid (t : Transaction) : Nat := t.txid

def SEQUENCE_MAX : Nat := 0xffffffff
def SEQUENCE_ENABLE_RBF_NO_LOCKTIME : Nat := 0xfffffffd

def serializeInstr (i : Instr) : List Byte :=
  match i with
  | .op c => [byteOf c]
  | .push b =>
    if b.length ≤ 75 then byteOf b.length :: b
    else if b.length ≤ 255 then byteOf 76 :: byteOf b.length :: b
    else if b.length ≤ 65535 then
      byteOf 77 :: byteOf (b.length % 256) :: byteOf (b.length / 256) :: b
    else
      byteOf 78 :: byteOf (b.length % 256) :: byteOf (b.length / 256 % 256) ::
        byteOf (b.length / 65536 % 256) :: byteOf (b.length / 16777216 % 256) :: b

def serializeScript (s : List Instr) : List Byte :=
  s.flatMap serializeInstr

/-- Abstraction of the secp256k1 primitives used by the embedded code.
The functions are opaque to the embedding: theorems quantify over every
model, so nothing is assumed about the actual curve arithmetic.
`aggKey` is `MusigKeyAggCache::new` followed by `agg_pk` on the ordered
key array; `finalize` is `TaprootBuilder::finalize` on the depth-1 tree
`(claim_leaf, refund_leaf)` returning the tweaked output key (`none`
models finalization failure); `controlBlock` is
`TaprootSpendInfo::control_block` for a leaf given the output key;
`scriptSighash` is `taproot_script_spend_signature_hash`; `schnorrSign`
signs a message with a keypair. -/
structure SecpModel where
  aggKey : List Nat → List Byte
  finalize : List Byte → List Instr → List Instr → Option (List Byte)
  controlBlock : List Byte → List Instr → Option (List Byte)
  scriptSighash : Transaction → Nat → List TxOut → List Instr → List Byte
  schnorrSign : Nat → List Byte → List Byte

/-- `BtcSwapScript::taproot_spendinfo` (src/swaps/bitcoin.rs line 309),
reduced to the tweaked output key: aggregate the keys in
`musig_keyagg_cache` order, build and finalize the depth-1 tree, and —
when a funding address is known — compare the freshly computed output
key against the x-only key parsed from the final data push of the
funding address `script_pubkey`, failing with a `Protocol` error on
mismatch.  (The source formats the two keys into the message; the model
keeps the fixed prefix.) -/
def BtcSwapScript.taproot_spendinfo (M : SecpModel) (s : BtcSwapScript) :
    Except Err (List Byte) :=
  match M.finalize (M.aggKey s.musig_keyagg_cache) s.claim_script
      s.refund_script with
  | none => .error (.taproot "Could not finalize taproot constructions")
  | some output_key =>
    match s.funding_addrs with
    | none => .ok output_key
    | some funding_address =>
      match funding_address.spkInstrs.getLast? with
      | none => .error (.panic "should contain value")
      | some (.op _) => .error (.panic "pubkey bytes expected")
      | some (.push bs) =>
        match xonlyFromSlice bs with
        | none => .error (.secp "malformed public key")
        | some lockup_xonly_pubkey =>
          if lockup_xonly_pubkey = output_key then .ok output_key
          else .error (.protocol "Taproot construction Failed")

/-- The `Chain` to `bitcoin::Network` mapping of `to_address`
(src/swaps/bitcoin.rs line 374): Liquid chains are refused. -/
def chainNetwork : Chain → Except Err Network
  | .bitcoin => .ok .bitcoin
  | .bitcoinRegtest => .ok .regtest
  | .bitcoinTestnet => .ok .testnet
  | _ => .error (.protocol "Liquid chain used for Bitcoin operations")

/-- `BtcSwapScript::to_address` (src/swaps/bitcoin.rs line 370). -/
def BtcSwapScript.to_address (M : SecpModel) (s : BtcSwapScript)
    (network : Chain) : Except Err Address := do
  let output_key ← s.taproot_spendinfo M
  let network ← chainNetwork network
  pure (Address.p2tr_tweaked output_key network)

/-- `electrum_client::GetHistoryRes`: height `0` means mempool, `-1`
means mempool with unconfirmed parents. -/
structure GetHistoryRes where
  tx_hash : Nat
  height : Int
  deriving DecidableEq, Repr

/-- The `tx_is_confirmed_map` of `fetch_utxos_core`: collecting the
`(tx_hash, height > 0)` pairs into a `HashMap` keeps, for a duplicated
txid, the last entry; lookup of an absent key yields `none` (turned into
`false` by `unwrap_or(false)` at the call site). -/
def tx_is_confirmed_map (history : List GetHistoryRes) (txid : Nat) :
    Option Bool :=
  (history.reverse.find? fun h => decide (h.tx_hash = txid)).map
    fun h => decide (0 < h.height)

/-- `BtcSwapScript::fetch_utxos_core` (src/swaps/bitcoin.rs line 420;
`ElectrumBitcoinClient::fetch_utxos_core` in src/network/electrum.rs
line 167 is byte-for-byte the same function): enumerate every output of
every transaction, keep those paying `spk`, drop those spent by some
transaction of the list whose annotated height is positive, and emit
`(outpoint, output)` pairs in iteration order. -/
def fetch_utxos_core (txs : List Transaction) (history : List GetHistoryRes)
    (spk : List Instr) : List (OutPoint × TxOut) :=
  txs.flatMap fun tx =>
    (((tx.output.enum.filter fun p => decide (p.2.script_pubkey = spk)).filter
        fun p =>
          ! txs.any fun spending_tx =>
            (spending_tx.input.any fun inp =>
              decide (inp.previous_output.txid = tx.compute_txid) &&
                decide (inp.previous_output.vout = p.1)) &&
              ((tx_is_confirmed_map history spending_tx.compute_txid).getD false)).map
      fun p => (OutPoint.new tx.compute_txid p.1, p.2))

/-- Specification-side selector, transliterated from the spec: the
returned list is exactly the outputs of `T` that pay `s` and are not
spent by any transaction of `T` whose annotated height is greater than
zero (a pending — height `≤ 0` — or unannotated spender does not remove
an output), in iteration order of `T` and then `vout`. -/
def utxosSpec (txs : List Transaction) (history : List GetHistoryRes)
    (spk : List Instr) : List (OutPoint × TxOut) :=
  txs.flatMap fun tx =>
    tx.output.enum.filterMap fun p =>
      if decide (p.2.script_pubkey = spk) &&
          ! txs.any (fun spender =>
            (spender.input.any fun inp =>
              decide (inp.previous_output = OutPoint.new tx.compute_txid p.1)) &&
              ((tx_is_confirmed_map history spender.compute_txid).getD false))
      then some (OutPoint.new tx.compute_txid p.1, p.2)
      else none

/-- The retry loop of `get_with_retry` (src/network/esplora.rs line 312)
over a stream of HTTP status codes, one consumed per iteration.  The
returned pair is the loop's result together with the list of sleep
durations (in seconds) it performed, in order; `none` means the stream
was exhausted while the loop still wanted another response. -/
def get_with_retry (attempt : Nat) : List Nat → Option (Except Err Nat × List Nat)
  | [] => none
  | status :: rest =>
    if status = 429 ∨ status = 503 then
      if attempt > 6 then some (.error (.esplora "Too many retries"), [])
      else
        match get_with_retry (attempt + 1) rest with
        | none => none
        | some (r, sleeps) => some (r, 2 ^ attempt :: sleeps)
    else some (.ok status, [])

/-- Abstraction of the two digest functions used by `Preimage`
(`bitcoin_hashes`); `hash160::Hash::hash` is RIPEMD160 after SHA256 by
that library's definition, which the embedding spells out. -/
structure HashModel where
  sha256 : List Byte → List Byte
  ripemd160 : List Byte → List Byte

/-- The `Preimage` struct (src/util/secrets.rs). -/
structure Preimage where
  bytes : Option (List Byte)
  sha256 : List Byte
  hash160 : List Byte
  deriving DecidableEq

/-- `Preimage::from_vec` (src/util/secrets.rs line 232): the
`try_into::<[u8; 32]>` succeeds exactly when the vector has length 32. -/
def Preimage.from_vec (H : HashModel) (preimage : List Byte) :
    Except Err Preimage :=
  if preimage.length = 32 then
    .ok { bytes := some preimage
          sha256 := H.sha256 preimage
          hash160 := H.ripemd160 (H.sha256 preimage) }
  else .error (.protocol "Decoded Preimage input is not 32 bytes")

def hexNibble (c : Char) : Option Nat :=
  if '0' ≤ c ∧ c ≤ '9' then some (c.toNat - '0'.toNat)
  else if 'a' ≤ c ∧ c ≤ 'f' then some (c.toNat - 'a'.toNat + 10)
  else if 'A' ≤ c ∧ c ≤ 'F' then some (c.toNat - 'A'.toNat + 10)
  else none

/-- `Vec::from_hex`: an even number of hex digits. -/
def hexDecode : List Char → Option (List Byte)
  | [] => some []
  | [_] => none
  | hi :: lo :: rest => do
    let h ← hexNibble hi
    let l ← hexNibble lo
    let tail ← hexDecode rest
    pure (byteOf (16 * h + l) :: tail)

/-- `Preimage::from_str` (src/util/secrets.rs line 202): hex-decode,
then defer to `from_vec`. -/
def Preimage.from_str (H : HashModel) (s : List Char) : Except Err Preimage :=
  match hexDecode s with
  | none => .error (.hex "invalid hex")
  | some b => Preimage.from_vec H b

/-- The `BtcSwapTx` struct (src/swaps/bitcoin.rs line 527). -/
structure BtcSwapTx where
  kind : SwapTxKind
  swap_script : BtcSwapScript
  output_address : Address
  utxos : List (OutPoint × TxOut)
  deriving DecidableEq

/-- The `Chain` to `bitcoin::Network` mapping used by `new_claim` and
`new_refund` (src/swaps/bitcoin.rs lines 553, 600): everything that is
not mainnet or testnet — including the Liquid chains — maps to regtest. -/
def cfg_network : Chain → Network
  | .bitcoin => .bitcoin
  | .bitcoinTestnet => .testnet
  | _ => .regtest

/-- `Address::is_valid_for_network`, modelled as agreement of the
address network with the required one. -/
def is_valid_for_network (a : Address) (n : Network) : Bool :=
  decide (a.network = n)

/-- `BtcSwapTx::new_claim` (src/swaps/bitcoin.rs line 540).  The two
effectful discovery calls are passed in as their results: `fetched` is
the outcome of `fetch_utxos`, `fallback` the outcome of
`fetch_lockup_utxo_boltz` (consulted only when the former failed).
Note that the source computes `address.is_valid_for_network(network)`
and discards the result — the embedding reproduces the dead statement. -/
def new_claim (swap_script : BtcSwapScript) (claim_address : Address)
    (cfgChain : Chain) (fetched : Except Err (List (OutPoint × TxOut)))
    (fallback : Except Err (Option (OutPoint × TxOut))) :
    Except Err BtcSwapTx := do
  if swap_script.swap_type = .submarine then
    throw (Err.protocol "Claim transactions cannot be constructed for Submarine swaps.")
  let network := cfg_network cfgChain
  let _ := is_valid_for_network claim_address network
  let utxo_info ← match fetched with
    | .ok v => pure v.head?
    | .error _ => fallback
  match utxo_info with
  | some utxo =>
    pure { kind := .claim
           swap_script := swap_script
           output_address := claim_address
           utxos := [utxo] }
  | none => throw (Err.protocol "No Bitcoin UTXO detected for this script")

/-- `BtcSwapTx::new_refund` (src/swaps/bitcoin.rs line 587): here the
address/network validation failure is fatal. -/
def new_refund (swap_script : BtcSwapScript) (refund_address : Address)
    (cfgChain : Chain) (fetched : Except Err (List (OutPoint × TxOut)))
    (fallback : Except Err (Option (OutPoint × TxOut))) :
    Except Err BtcSwapTx := do
  if swap_script.swap_type = .reverseSubmarine then
    throw (Err.protocol "Refund Txs cannot be constructed for Reverse Submarine Swaps.")
  let network := cfg_network cfgChain
  if ¬ is_valid_for_network refund_address network then
    throw (Err.address "Address validation failed")
  let utxos ← match fetched with
    | .ok r => pure r
    | .error _ => do
      let lockup_utxo_info ← fallback
      match lockup_utxo_info with
      | some r => pure [r]
      | none => pure ([] : List (OutPoint × TxOut))
  if utxos.isEmpty then
    throw (Err.protocol "No Bitcoin UTXO detected for this script")
  else
    pure { kind := .refund
           swap_script := swap_script
           output_address := refund_address
           utxos := utxos }

def setInputWitness (tx : Transaction) (i : Nat) (w : List (List Byte)) :
    Transaction :=
  { tx with input := tx.input.enum.map fun p =>
      if p.1 = i then { p.2 with witness := w } else p.2 }

/-- `BtcSwapTx::stubbed_cooperative_witness`: a single 64-byte zero item. -/
def stubbed_cooperative_witness : List (List Byte) :=
  [List.replicate 64 (byteOf 0)]

/-- `BtcSwapTx::create_claim` (src/swaps/bitcoin.rs line 846).  The
`u64` subtraction `utxo.value - absolute_fees` panics on underflow in a
debug build, modelled by `Err.panic`. -/
def create_claim (M : SecpModel) (t : BtcSwapTx) (keys : Nat)
    (preimage : Preimage) (absolute_fees : Nat) (is_cooperative : Bool) :
    Except Err Transaction := do
  let preimage_bytes ← match preimage.bytes with
    | some value => pure value
    | none => throw (Err.protocol "No preimage provided while signing.")
  let utxo ← match t.utxos.head? with
    | some u => pure u
    | none => throw (Err.protocol "No Bitcoin UTXO detected for this script")
  let txin : TxIn :=
    { previous_output := utxo.1
      sequence := SEQUENCE_ENABLE_RBF_NO_LOCKTIME
      script_sig := []
      witness := [] }
  if utxo.2.value < absolute_fees then
    throw (Err.panic "attempt to subtract with overflow")
  let txout : TxOut :=
    { script_pubkey := t.output_address.spkInstrs
      value := utxo.2.value - absolute_fees }
  let claim_tx : Transaction :=
    { version := 2, lock_time := 0, input := [txin], output := [txout]
      txid := 0 }
  if is_cooperative then
    pure (setInputWitness claim_tx 0 stubbed_cooperative_witness)
  else do
    let claim_tx :=
      { claim_tx with input := claim_tx.input.enum.map fun p =>
          if p.1 = 0 then { p.2 with sequence := 0 } else p.2 }
    let sighash :=
      M.scriptSighash claim_tx 0 [utxo.2] t.swap_script.claim_script
    let signature := M.schnorrSign keys sighash
    let output_key ← t.swap_script.taproot_spendinfo M
    let control_block ← match M.controlBlock output_key t.swap_script.claim_script with
      | some cb => pure cb
      | none => throw (Err.panic "Control block calculation failed")
    pure (setInputWitness claim_tx 0
      [signature, preimage_bytes, serializeScript t.swap_script.claim_script,
       control_block])

/-- The locktime recovery of `create_refund` (src/swaps/bitcoin.rs line
1109): the first instruction of the freshly rebuilt refund script that
is a byte push of fewer than 5 bytes, decoded little-endian.  (Under
the `len < 5` guard `bytes_to_u32_little_endian` cannot panic and
computes `leVal`; see `bytes_to_u32_eq_leVal`.) -/
def refund_script_lock_time (script : List Instr) : Option Nat :=
  script.findSome? fun i =>
    match i with
    | .push b => if b.length < 5 then some (leVal b) else none
    | .op _ => none

/-- Fill loop of the non-cooperative refund path: for each input index
compute the script-spend sighash on the current transaction, sign it,
and install `[signature, refund_script, control_block]` as the witness. -/
def refundFillGo (M : SecpModel) (keys : Nat) (script : List Instr)
    (tx_outs : List TxOut) (control_block : List Byte)
    (tx : Transaction) (i : Nat) : Nat → Transaction
  | 0 => tx
  | n + 1 =>
    let sighash := M.scriptSighash tx i tx_outs script
    let signature := M.schnorrSign keys sighash
    let tx := setInputWitness tx i
      [signature, serializeScript script, control_block]
    refundFillGo M keys script tx_outs control_block tx (i + 1) n

/-- `BtcSwapTx::create_refund` (src/swaps/bitcoin.rs line 1076).  The
`Generic` message is kept without the interpolated amounts; the `?`
operators of the source appear as explicit matches. -/
def create_refund (M : SecpModel) (t : BtcSwapTx) (keys : Nat)
    (absolute_fees : Nat) (is_cooperative : Bool) : Except Err Transaction :=
  let utxos_amount := (t.utxos.map fun u => u.2.value).sum
  if utxos_amount ≤ absolute_fees then
    .error (.generic "Cannot sign Refund Tx because utxos_amount <= absolute_fees")
  else
    let output : TxOut :=
      { script_pubkey := t.output_address.spkInstrs
        value := utxos_amount - absolute_fees }
    let unsigned_inputs : List TxIn := t.utxos.map fun u =>
      { previous_output := u.1
        script_sig := []
        sequence := SEQUENCE_MAX
        witness := [] }
    match refund_script_lock_time t.swap_script.refund_script with
    | none => .error (.protocol "Error getting timelock from refund script")
    | some lock_time =>
      let refund_tx : Transaction :=
        { version := 2, lock_time := lock_time, input := unsigned_inputs,
          output := [output], txid := 0 }
      let tx_outs := t.utxos.map fun u => u.2
      if is_cooperative then
        .ok { refund_tx with input := refund_tx.input.map fun inp =>
          { inp with witness := stubbed_cooperative_witness } }
      else
        match t.swap_script.taproot_spendinfo M with
        | .error e => .error e
        | .ok output_key =>
          match M.controlBlock output_key t.swap_script.refund_script with
          | none => .error (.protocol "Control block calculation failed")
          | some control_block =>
            let refund_tx : Transaction :=
              { refund_tx with input := refund_tx.input.map fun inp =>
                  { inp with sequence := 0 } }
            .ok (refundFillGo M keys t.swap_script.refund_script tx_outs
              control_block refund_tx 0 refund_tx.input.length)

/-- The `Fee` parameter of signing.  Modelled from the spec:
`src/util/fees.rs` is declared by `src/util/mod.rs` but is not among the
provided sources.  Per spec section 4.F, `Absolute(sat)` pins the fee.
(The `Rate` fixed-point iteration is not modelled; no claim depends on
it.) -/
inductive Fee where
  | absolute (sats : Nat)
  deriving DecidableEq, Repr

/-- Modelled from the spec: `create_tx_with_fee` of the missing
`src/util/fees.rs`, restricted to `Fee::Absolute`, which per spec
section 4.F pins the absolute fee, so the builder runs once with it. -/
def create_tx_with_fee (fee : Fee) (build : Nat → Except Err Transaction) :
    Except Err Transaction :=
  match fee with
  | .absolute n => build n

/-- Per-input witness loop of the cooperative refund path: `coopRound`
abstracts one MuSig2 round-trip with the service (nonce generation,
partial-signature exchange, verification, aggregation) and returns the
witness it installs on the input, or fails. -/
def coopFillGo (coopRound : Transaction → Nat → Except Err (List (List Byte)))
    (tx : Transaction) (i : Nat) : Nat → Except Err Transaction
  | 0 => .ok tx
  | n + 1 => do
    let w ← coopRound tx i
    coopFillGo coopRound (setInputWitness tx i w) (i + 1) n

/-- `BtcSwapTx::sign_refund` (src/swaps/bitcoin.rs line 935): type and
kind guards, fee-parameterised build via `create_refund`, and — for a
cooperative spend — `lock_time` cleared to zero before the per-input
MuSig2 loop. -/
def sign_refund (M : SecpModel)
    (coopRound : Transaction → Nat → Except Err (List (List Byte)))
    (t : BtcSwapTx) (keys : Nat) (fee : Fee) (is_cooperative : Bool) :
    Except Err Transaction := do
  if t.swap_script.swap_type = .reverseSubmarine then
    throw (Err.protocol "Refund Tx signing is not applicable for Reverse Submarine Swaps")
  if t.kind = .claim then
    throw (Err.protocol "Cannot sign refund with a claim-type BtcSwapTx")
  let refund_tx ← create_tx_with_fee fee
    (fun f => create_refund M t keys f is_cooperative)
  if is_cooperative then
    let refund_tx := { refund_tx with lock_time := 0 }
    coopFillGo coopRound refund_tx 0 refund_tx.input.length
  else
    pure refund_tx

/-- Specification-side reading of the hashlock rule as the spec words
it: the first push of exactly 20 bytes in the claim leaf. -/
def firstPush20 (l : List Instr) : Option (List Byte) :=
  l.findSome? fun i =>
    match i with
    | .push b => if b.length = 20 then some b else none
    | .op _ => none

/-- A push of exactly 20 bytes, as a `Hash160`. -/
def pick20 : Instr → Option Hash160
  | .push b => if h : b.length = 20 then some (⟨b, h⟩ : Hash160) else none
  | .op _ => none

/-- The last push of exactly 20 bytes in the claim leaf (what the
extraction loop actually keeps). -/
def lastPush20 (l : List Instr) : Option Hash160 :=
  l.reverse.findSome? pick20

/-- Little-endian positional value of a byte list (the mathematical
reading of the accumulation loop). -/
def bytesVal : List Byte → Nat
  | [] => 0
  | b :: rest => b.val + 256 * bytesVal rest

/-- A trivial instantiation of the secp256k1 abstraction, used to
evaluate the embedded operations on concrete inputs. -/
def M0 : SecpModel :=
  { aggKey := fun _ => List.replicate 32 (byteOf 7)
    finalize := fun ik _ _ => some ik
    controlBlock := fun _ _ => some [byteOf 0xc0]
    scriptSighash := fun _ _ _ _ => []
    schnorrSign := fun _ _ => [] }

/-- A trivial instantiation of the digest abstraction. -/
def H0 : HashModel := { sha256 := id, ripemd160 := id }

def xo1 : XOnly := ⟨List.replicate 32 (byteOf 1), by simp⟩

def pk1 : PublicKey := ⟨1, xo1⟩

def pk2 : PublicKey := ⟨2, xo1⟩

def h20 : Hash160 := ⟨List.replicate 20 (byteOf 3), by simp⟩

/-- Address whose witness program is exactly `M0`'s computed taproot
output key. -/
def addrOk : Address := ⟨.bitcoin, 1, List.replicate 32 (byteOf 7)⟩

/-- Taproot address with a (valid-length) program that differs from the
computed output key. -/
def addrBad : Address := ⟨.bitcoin, 1, List.replicate 32 (byteOf 8)⟩

/-- A testnet address, used against a mainnet configuration. -/
def addrTest : Address := ⟨.testnet, 1, List.replicate 32 (byteOf 4)⟩

def sampleRev : BtcSwapScript :=
  { swap_type := .reverseSubmarine, side := none, funding_addrs := none
    hashlock := h20, receiver_pubkey := pk2, locktime := 100, sender_pubkey := pk1 }

def sampleSub : BtcSwapScript :=
  { swap_type := .submarine, side := none, funding_addrs := none
    hashlock := h20, receiver_pubkey := pk2, locktime := 100, sender_pubkey := pk1 }

def sampleVerified : BtcSwapScript := { sampleRev with funding_addrs := some addrOk }

def sampleMismatch : BtcSwapScript := { sampleRev with funding_addrs := some addrBad }

def u0 : OutPoint × TxOut := (⟨5, 0⟩, ⟨1000, [.op 81]⟩)

/-- A claim-kind swap transaction over a single 1000-sat utxo. -/
def claimTx0 : BtcSwapTx :=
  { kind := .claim, swap_script := sampleRev, output_address := addrOk
    utxos := [u0] }

/-- A refund-kind swap transaction whose script locktime is the small
value 3. -/
def refundTx3 : BtcSwapTx :=
  { kind := .refund, swap_script := { sampleSub with locktime := 3 }
    output_address := addrOk, utxos := [u0] }

def p32 : Preimage :=
  { bytes := some (List.replicate 32 (byteOf 0))
    sha256 := List.replicate 32 (byteOf 0)
    hash160 := List.replicate 32 (byteOf 0) }

/-- Trivial cooperative round-trip used to evaluate `sign_refund` on
concrete inputs. -/
def coop0 : Transaction → Nat → Except Err (List (List Byte)) :=
  fun _ _ => .ok [List.replicate 64 (byteOf 0)]

/-- Claim leaf with two distinct 20-byte pushes. -/
def clTwoPushes : List Instr :=
  [.push (List.replicate 20 (byteOf 1)), .push (List.replicate 20 (byteOf 2))]

/-- Refund leaf with locktime push `[3]` after `OP_CHECKSIGVERIFY`. -/
def rlSimple : List Instr := [.op OP_CHECKSIGVERIFY, .push [byteOf 3]]

/-- Claim leaf with a single 20-byte push. -/
def clSimple : List Instr := [.push (List.replicate 20 (byteOf 1))]

/-- Refund leaf whose push after `OP_CHECKSIGVERIFY` has five bytes. -/
def rlFiveBytePush : List Instr :=
  [.op OP_CHECKSIGVERIFY,
   .push [byteOf 0, byteOf 0, byteOf 0, byteOf 0, byteOf 1]]

/-- A refund-kind swap transaction whose script locktime is 100. -/
def t100 : BtcSwapTx :=
  { kind := .refund, swap_script := sampleSub, output_address := addrOk
    utxos := [u0] }

/-- The transaction the non-cooperative `sign_refund` produces on
`t100` under `M0` with absolute fee 10. -/
def txRefund100 : Transaction :=
  { version := 2, lock_time := 100
    input := [{ previous_output := ⟨5, 0⟩
                script_sig := []
                sequence := 0
                witness := [[], serializeScript sampleSub.refund_script,
                  [byteOf 0xc0]] }]
    output := [{ value := 990, script_pubkey := addrOk.spkInstrs }]
    txid := 0 }

/-- The transaction the cooperative `sign_refund` produces on `t100`
under `M0` and `coop0` with absolute fee 10. -/
def txRefund100Coop : Transaction :=
  { version := 2, lock_time := 0
    input := [{ previous_output := ⟨5, 0⟩
                script_sig := []
                sequence := SEQUENCE_MAX
                witness := [List.replicate 64 (byteOf 0)] }]
    output := [{ value := 990, script_pubkey := addrOk.spkInstrs }]
    txid := 0 }

/-- C3: the MuSig2 key-aggregation cache orders the participant keys
`[sender, receiver]` for ReverseSubmarine (any side) and for Chain with
side Claim, and `[receiver, sender]` for Submarine (any side) and for
Chain with any other side. -/
theorem musig_key_aggregation_order (s : BtcSwapScript) :
    ((s.swap_type = .reverseSubmarine ∨
        (s.swap_type = .chain ∧ s.side = some .claim)) →
      s.musig_keyagg_cache = [s.sender_pubkey.inner, s.receiver_pubkey.inner]) ∧
    ((s.swap_type = .submarine ∨
        (s.swap_type = .chain ∧ s.side ≠ some .claim)) →
      s.musig_keyagg_cache = [s.receiver_pubkey.inner, s.sender_pubkey.inner]) := by
  obtain ⟨ty, sd, f, hl, r, lt, snd⟩ := s
  constructor
  · rintro (h1 | ⟨h1, h2⟩)
    · subst h1
      cases sd <;> rfl
    · subst h1
      subst h2
      rfl
  · rintro (h1 | ⟨h1, h2⟩)
    · subst h1
      cases sd <;> rfl
    · subst h1
      rcases sd with _ | side
      · rfl
      · cases side
        · rfl
        · exact absurd rfl h2

theorem musig_key_aggregation_order_witness :
    sampleRev.musig_keyagg_cache =
        [sampleRev.sender_pubkey.inner, sampleRev.receiver_pubkey.inner] ∧
    sampleSub.musig_keyagg_cache =
        [sampleSub.receiver_pubkey.inner, sampleSub.sender_pubkey.inner] :=
  ⟨(musig_key_aggregation_order sampleRev).1 (Or.inl rfl),
   (musig_key_aggregation_order sampleSub).2 (Or.inl rfl)⟩

/-- C4: evaluating the retry loop.  With eight consecutive 429
responses the loop sleeps seven times (1, 2, 4, 8, 16, 32, 64 seconds)
and only then fails with `Esplora("Too many retries")` — not after six
retries as claimed (and as the source's own log line "tried 6 times,
failing" asserts).  The second conjunct checks the claimed happy path:
three 429s then a 200 succeed after sleeps of exactly 1, 2, 4. -/
theorem esplora_retry_budget_is_seven :
    get_with_retry 0 (List.replicate 8 429) =
      some (.error (.esplora "Too many retries"), [1, 2, 4, 8, 16, 32, 64]) ∧
    get_with_retry 0 [429, 429, 429, 200] = some (.ok 200, [1, 2, 4]) := by
  constructor <;> rfl

/-- C7: `new_claim` computes the address/network validity and discards
it: with a testnet address under a mainnet configuration (on which
`is_valid_for_network` is `false`) it still returns the transaction
builder, while `new_refund` with the same address fails with
`Address("Address validation failed")`. -/
theorem new_claim_skips_address_validation :
    is_valid_for_network addrTest (cfg_network .bitcoin) = false ∧
    new_claim sampleRev addrTest .bitcoin (.ok [u0]) (.ok none) =
      .ok { kind := .claim, swap_script := sampleRev,
            output_address := addrTest, utxos := [u0] } ∧
    new_refund sampleSub addrTest .bitcoin (.ok [u0]) (.ok none) =
      .error (.address "Address validation failed") := by
  refine ⟨rfl, rfl, rfl⟩

/-- C9: the parsing constructors put no length bound on the push that
follows `OP_CHECKSIGVERIFY`: a five-byte push reaches a left shift by
32, an arithmetic-overflow panic in a debug build (the sibling loop in
`create_refund` guards with `len < 5`; the constructors do not).  The
second conjunct checks the claimed behaviour on a push of length at
most 4: plain unsigned little-endian decoding. -/
theorem refund_leaf_five_byte_push_panics :
    submarine_from_swap_resp clSimple rlFiveBytePush addrOk pk2 pk1 =
      .error (.panic "attempt to shift left with overflow") ∧
    bytes_to_u32_little_endian [byteOf 5, byteOf 6] = .ok (5 + 6 * 256) := by
  constructor <;> rfl

/-- C8: `Preimage::from_vec` succeeds exactly on 32-byte inputs,
rejecting anything else with the `Protocol` not-32-bytes error; on
success it stores the bytes and the two digests, with `hash160` the
RIPEMD160 of the SHA256; `from_str` (the hex constructor) defers to it. -/
theorem preimage_from_vec_spec (H : HashModel) (b : List Byte) :
    ((∃ p, Preimage.from_vec H b = .ok p) ↔ b.length = 32) ∧
    (∀ p, Preimage.from_vec H b = .ok p →
      p.bytes = some b ∧ p.sha256 = H.sha256 b ∧
        p.hash160 = H.ripemd160 (H.sha256 b)) ∧
    (b.length ≠ 32 →
      Preimage.from_vec H b =
        .error (.protocol "Decoded Preimage input is not 32 bytes")) ∧
    (∀ s, hexDecode s = some b →
      Preimage.from_str H s = Preimage.from_vec H b) := by
  by_cases h : b.length = 32
  · refine ⟨⟨fun _ => h,
      fun _ => ⟨{ bytes := some b, sha256 := H.sha256 b,
                  hash160 := H.ripemd160 (H.sha256 b) },
        by simp [Preimage.from_vec, h]⟩⟩, ?_, ?_, ?_⟩
    · intro p hp
      simp [Preimage.from_vec, h] at hp
      simp [← hp]
    · intro hne
      exact absurd h hne
    · intro s hs
      simp [Preimage.from_str, hs]
  · refine ⟨⟨fun ⟨p, hp⟩ => ?_, fun hl => absurd hl h⟩, ?_, ?_, ?_⟩
    · simp [Preimage.from_vec, h] at hp
    · intro p hp
      simp [Preimage.from_vec, h] at hp
    · intro _
      simp [Preimage.from_vec, h]
    · intro s hs
      simp [Preimage.from_str, hs]

theorem preimage_from_vec_spec_witness :
    (∃ p, Preimage.from_vec H0 (List.replicate 32 (byteOf 0)) = .ok p) ∧
    Preimage.from_vec H0 (List.replicate 31 (byteOf 0)) =
      .error (.protocol "Decoded Preimage input is not 32 bytes") ∧
    Preimage.from_vec H0 (List.replicate 33 (byteOf 0)) =
      .error (.protocol "Decoded Preimage input is not 32 bytes") ∧
    Preimage.from_str H0 (List.replicate 64 '0') =
      Preimage.from_vec H0 (List.replicate 32 (byteOf 0)) :=
  ⟨(preimage_from_vec_spec H0 _).1.mpr (by simp),
   (preimage_from_vec_spec H0 _).2.2.1 (by simp),
   (preimage_from_vec_spec H0 _).2.2.1 (by simp),
   (preimage_from_vec_spec H0 _).2.2.2 _ (by decide)⟩

/-- C5, counterexample: on a claim leaf with two distinct 20-byte pushes
the parsed hashlock is the second (last) push, not the first as claimed:
the extraction loop overwrites `hashlock` on every 20-byte push. -/
theorem hashlock_first_push_counterexample :
    (submarine_from_swap_resp clTwoPushes rlSimple addrOk pk2 pk1).map
        (fun s => s.hashlock.val) = .ok (List.replicate 20 (byteOf 2)) ∧
    firstPush20 clTwoPushes = some (List.replicate 20 (byteOf 1)) ∧
    (List.replicate 20 (byteOf 2) : List Byte) ≠ List.replicate 20 (byteOf 1) := by
  refine ⟨rfl, rfl, by decide⟩

theorem extractHashlockGo_eq (l : List Instr) : ∀ acc : Option Hash160,
    extractHashlockGo acc l =
      match lastPush20 l with
      | some h => some h
      | none => acc := by
  induction l with
  | nil => intro acc; rfl
  | cons i rest ih =>
    intro acc
    have hsplit : lastPush20 (i :: rest) =
        match lastPush20 rest with
        | some h => some h
        | none => pick20 i := by
      unfold lastPush20
      rw [List.reverse_cons, List.findSome?_append]
      rcases hr : List.findSome? pick20 rest.reverse with _ | h <;>
        cases hi : pick20 i <;> simp [Option.or, hr, hi]
    rw [hsplit]
    cases i with
    | op c =>
      simp only [extractHashlockGo]
      rw [ih acc]
      rcases hr : lastPush20 rest with _ | h <;> simp [pick20]
    | push b =>
      by_cases hb : b.length = 20
      · simp only [extractHashlockGo, hb, dite_true]
        rw [ih (some ⟨b, hb⟩)]
        rcases hr : lastPush20 rest with _ | h <;> simp [pick20, hb]
      · simp only [extractHashlockGo, hb, dite_false]
        rw [ih acc]
        rcases hr : lastPush20 rest with _ | h <;> simp [pick20, hb]

theorem extractHashlock_eq_lastPush20 (l : List Instr) :
    extractHashlock l = lastPush20 l := by
  rw [extractHashlock, extractHashlockGo_eq]
  rcases lastPush20 l with _ | h <;> rfl

theorem submarine_from_swap_resp_eq (cl rl : List Instr) (a : Address)
    (k1 k2 : PublicKey) :
    submarine_from_swap_resp cl rl a k1 k2 =
      match extractTimelock rl with
      | .error e => .error e
      | .ok tl =>
        match lastPush20 cl with
        | none => .error (.protocol "No hashlock provided")
        | some h =>
          match tl with
          | none => .error (.protocol "No timelock provided")
          | some t =>
            .ok { swap_type := .submarine
                  side := none
                  funding_addrs := some a
                  hashlock := h
                  receiver_pubkey := k1
                  locktime := t
                  sender_pubkey := k2 } := by
  unfold submarine_from_swap_resp
  rw [extractHashlock_eq_lastPush20]
  rcases extractTimelock rl with e | tl
  · rfl
  · rcases lastPush20 cl with _ | h
    · rfl
    · rcases tl with _ | t <;> rfl

/-- C5, amended: the hashlock kept by the parsing constructors is the
last push of exactly 20 bytes of the claim leaf (the loop overwrites on
every such push); when the claim leaf has no 20-byte push — and the
refund-leaf loop did not abort — the constructor fails with
`Protocol("No hashlock provided")`.  The loop is shared verbatim by the
reverse and chain constructors (see `extractHashlock`). -/
theorem hashlock_is_last_20_byte_push (cl rl : List Instr) (a : Address)
    (k1 k2 : PublicKey) :
    (∀ s, submarine_from_swap_resp cl rl a k1 k2 = .ok s →
      lastPush20 cl = some s.hashlock) ∧
    (lastPush20 cl = none → ∀ tl, extractTimelock rl = .ok tl →
      submarine_from_swap_resp cl rl a k1 k2 =
        .error (.protocol "No hashlock provided")) := by
  constructor
  · intro s hs
    rw [submarine_from_swap_resp_eq] at hs
    rcases htl : extractTimelock rl with e | tl <;> rw [htl] at hs
    · simp at hs
    · rcases hhl : lastPush20 cl with _ | h <;> rw [hhl] at hs
      · simp at hs
      · rcases tl with _ | t
        · simp at hs
        · simp only [Except.ok.injEq] at hs
          rw [← hs]
  · intro hnone tl htl
    rw [submarine_from_swap_resp_eq, htl, hnone]

theorem hashlock_is_last_20_byte_push_witness :
    lastPush20 clTwoPushes =
      some (⟨List.replicate 20 (byteOf 2), by decide⟩ : Hash160) ∧
    submarine_from_swap_resp [] rlSimple addrOk pk2 pk1 =
      .error (.protocol "No hashlock provided") := by
  constructor
  · exact (hashlock_is_last_20_byte_push clTwoPushes rlSimple addrOk pk2 pk1).1
      { swap_type := .submarine, side := none, funding_addrs := some addrOk,
        hashlock := ⟨List.replicate 20 (byteOf 2), by decide⟩,
        receiver_pubkey := pk2, locktime := 3, sender_pubkey := pk1 } rfl
  · exact (hashlock_is_last_20_byte_push [] rlSimple addrOk pk2 pk1).2 rfl
      (some 3) rfl

theorem filter_filter_map_eq_filterMap {α β : Type} (l : List α)
    (p q : α → Bool) (f : α → β) :
    ((l.filter p).filter q).map f =
      l.filterMap fun x => if p x && q x then some (f x) else none := by
  induction l with
  | nil => rfl
  | cons a l ih =>
    by_cases hp : p a <;> by_cases hq : q a <;>
      simp [List.filter_cons, hp, hq, List.filterMap_cons] <;>
      simpa using ih

theorem outPoint_eq_decide (o : OutPoint) (t v : Nat) :
    (decide (o.txid = t) && decide (o.vout = v)) =
      decide (o = OutPoint.new t v) := by
  obtain ⟨a, b⟩ := o
  by_cases h1 : a = t <;> by_cases h2 : b = v <;> simp [OutPoint.new, h1, h2]

/-- C2: `fetch_utxos_core` returns exactly the outputs paying the
target script that are not spent by a confirmed (annotated height
greater than zero) spender in the transaction list — a pending (height
at most zero) or unannotated spender does not remove an output — in
iteration order of the transaction list and then of `vout`. -/
theorem fetch_utxos_core_eq_spec (txs : List Transaction)
    (history : List GetHistoryRes) (spk : List Instr) :
    fetch_utxos_core txs history spk = utxosSpec txs history spk := by
  unfold fetch_utxos_core utxosSpec
  congr 1
  funext tx
  rw [filter_filter_map_eq_filterMap]
  simp only [outPoint_eq_decide]

theorem taproot_spendinfo_eq (M : SecpModel) (s : BtcSwapScript) :
    s.taproot_spendinfo M =
      match M.finalize (M.aggKey s.musig_keyagg_cache) s.claim_script
          s.refund_script with
      | none => .error (.taproot "Could not finalize taproot constructions")
      | some output_key =>
        match s.funding_addrs with
        | none => .ok output_key
        | some a =>
          match xonlyFromSlice a.program with
          | none => .error (.secp "malformed public key")
          | some lk =>
            if lk = output_key then .ok output_key
            else .error (.protocol "Taproot construction Failed") := by
  unfold BtcSwapScript.taproot_spendinfo
  rcases hfin : M.finalize (M.aggKey s.musig_keyagg_cache) s.claim_script
      s.refund_script with _ | k
  · rfl
  · rcases s.funding_addrs with _ | a
    · rfl
    · have hlast : a.spkInstrs.getLast? = some (.push a.program) := by
        by_cases h0 : a.witver = 0 <;> simp [Address.spkInstrs, h0]
      simp only [hlast]

theorem taproot_spendinfo_ok_iff (M : SecpModel) (s : BtcSwapScript)
    (a : Address) (ha : s.funding_addrs = some a) (k : List Byte) :
    s.taproot_spendinfo M = .ok k ↔
      M.finalize (M.aggKey s.musig_keyagg_cache) s.claim_script
          s.refund_script = some k ∧
        xonlyFromSlice a.program = some k := by
  rw [taproot_spendinfo_eq, ha]
  rcases hfin : M.finalize (M.aggKey s.musig_keyagg_cache) s.claim_script
      s.refund_script with _ | k'
  · simp [hfin]
  · simp only [hfin]
    rcases hx : xonlyFromSlice a.program with _ | lk
    · simp [hx]
    · simp only [hx]
      by_cases he : lk = k'
      · subst he
        simp
      · simp only [if_neg he, Option.some.injEq]
        constructor
        · intro h
          exact absurd h (by simp)
        · rintro ⟨h1, h2⟩
          exact absurd (h2.trans h1.symm) he

theorem taproot_spendinfo_mismatch (M : SecpModel) (s : BtcSwapScript)
    (a : Address) (ha : s.funding_addrs = some a) (k j : List Byte)
    (hfin : M.finalize (M.aggKey s.musig_keyagg_cache) s.claim_script
      s.refund_script = some k)
    (hx : xonlyFromSlice a.program = some j) (hne : j ≠ k) :
    s.taproot_spendinfo M = .error (.protocol "Taproot construction Failed") := by
  rw [taproot_spendinfo_eq, ha, hfin]
  simp [hx, hne]

/-- C1: with a known funding address, assembling the taproot spend info
succeeds exactly when the freshly computed output key equals the x-only
key extracted from the funding address witness program (the final data
push of its `script_pubkey`); a mismatch is the fixed `Protocol` error;
on success `to_address` on the chain matching the funding address
returns the funding address itself.  With no funding address,
`to_address` succeeds (whenever tree finalization does) and returns the
tweaked-key taproot address for the mapped network.  `sign_claim`,
`sign_refund` and `partial_sign` reach the same gate through
`taproot_spendinfo()?`. -/
theorem taproot_output_key_verification (M : SecpModel) (s : BtcSwapScript) :
    (∀ a, s.funding_addrs = some a →
      (∀ k, s.taproot_spendinfo M = .ok k ↔
        (M.finalize (M.aggKey s.musig_keyagg_cache) s.claim_script
            s.refund_script = some k ∧
          xonlyFromSlice a.program = some k)) ∧
      (∀ k j, M.finalize (M.aggKey s.musig_keyagg_cache) s.claim_script
            s.refund_script = some k →
        xonlyFromSlice a.program = some j → j ≠ k →
        s.taproot_spendinfo M =
          .error (.protocol "Taproot construction Failed")) ∧
      (∀ k c, s.taproot_spendinfo M = .ok k → a.witver = 1 →
        chainNetwork c = .ok a.network → s.to_address M c = .ok a)) ∧
    (s.funding_addrs = none →
      ∀ k c net, M.finalize (M.aggKey s.musig_keyagg_cache) s.claim_script
          s.refund_script = some k →
        chainNetwork c = .ok net →
        s.to_address M c = .ok (Address.p2tr_tweaked k net)) := by
  constructor
  · intro a ha
    refine ⟨fun k => taproot_spendinfo_ok_iff M s a ha k,
      fun k j => taproot_spendinfo_mismatch M s a ha k j, ?_⟩
    intro k c hk hw hnet
    have hx : xonlyFromSlice a.program = some k :=
      ((taproot_spendinfo_ok_iff M s a ha k).1 hk).2
    have hprog : a.program = k := by
      unfold xonlyFromSlice at hx
      by_cases hl : a.program.length = 32
      · simpa [hl] using hx
      · simp [hl] at hx
    obtain ⟨n, w, pr⟩ := a
    simp only at hprog hw hnet
    subst hw
    subst hprog
    unfold BtcSwapScript.to_address
    rw [hk, hnet]
    rfl
  · intro hnone k c net hfin hnet
    unfold BtcSwapScript.to_address
    rw [taproot_spendinfo_eq, hnone, hfin, hnet]
    rfl

theorem taproot_output_key_verification_witness :
    sampleVerified.to_address M0 .bitcoin = .ok addrOk ∧
    sampleMismatch.taproot_spendinfo M0 =
      .error (.protocol "Taproot construction Failed") ∧
    sampleRev.to_address M0 .bitcoin =
      .ok (Address.p2tr_tweaked (List.replicate 32 (byteOf 7)) .bitcoin) := by
  refine ⟨?_, ?_, ?_⟩
  · exact ((taproot_output_key_verification M0 sampleVerified).1 addrOk
      rfl).2.2 (List.replicate 32 (byteOf 7)) .bitcoin rfl rfl rfl
  · exact ((taproot_output_key_verification M0 sampleMismatch).1 addrBad
      rfl).2.1 (List.replicate 32 (byteOf 7)) (List.replicate 32 (byteOf 8))
      rfl rfl (by decide)
  · exact (taproot_output_key_verification M0 sampleRev).2 rfl
      (List.replicate 32 (byteOf 7)) .bitcoin .bitcoin rfl rfl

theorem create_refund_insufficient (M : SecpModel) (t : BtcSwapTx)
    (keys fee : Nat) (b : Bool)
    (h : (t.utxos.map fun u => u.2.value).sum ≤ fee) :
    create_refund M t keys fee b =
      .error (.generic "Cannot sign Refund Tx because utxos_amount <= absolute_fees") := by
  simp [create_refund, h]

theorem sign_refund_insufficient (M : SecpModel)
    (coopRound : Transaction → Nat → Except Err (List (List Byte)))
    (t : BtcSwapTx) (keys fee : Nat) (b : Bool)
    (h : (t.utxos.map fun u => u.2.value).sum ≤ fee)
    (hswap : t.swap_script.swap_type ≠ .reverseSubmarine)
    (hkind : t.kind ≠ .claim) :
    sign_refund M coopRound t keys (.absolute fee) b =
      .error (.generic "Cannot sign Refund Tx because utxos_amount <= absolute_fees") := by
  simp [sign_refund, hswap, hkind, create_tx_with_fee,
    create_refund_insufficient M t keys fee b h]
  rfl

/-- C6, amended: refund building rejects `utxos_value ≤ absolute_fee`
(equality included) with the `Generic` insufficient-funds error, and
`sign_refund` propagates it; but claim building performs no such check:
with first-utxo value equal to the fee it returns a transaction paying a
zero-value output, and with value below the fee the `u64` subtraction
underflows (a panic in a debug build). -/
theorem insufficient_funds_bound (M : SecpModel)
    (coopRound : Transaction → Nat → Except Err (List (List Byte)))
    (t : BtcSwapTx) (keys fee : Nat) (b : Bool) (p : Preimage) :
    ((t.utxos.map fun u => u.2.value).sum ≤ fee →
      create_refund M t keys fee b =
        .error (.generic "Cannot sign Refund Tx because utxos_amount <= absolute_fees")) ∧
    ((t.utxos.map fun u => u.2.value).sum ≤ fee →
      t.swap_script.swap_type ≠ .reverseSubmarine → t.kind ≠ .claim →
      sign_refund M coopRound t keys (.absolute fee) b =
        .error (.generic "Cannot sign Refund Tx because utxos_amount <= absolute_fees")) ∧
    (∀ u rest pb, t.utxos = u :: rest → p.bytes = some pb →
      u.2.value = fee →
      (create_claim M t keys p fee true).map
          (fun tx => tx.output.map TxOut.value) = .ok [0]) ∧
    (∀ u rest pb, t.utxos = u :: rest → p.bytes = some pb →
      u.2.value < fee →
      create_claim M t keys p fee b =
        .error (.panic "attempt to subtract with overflow")) := by
  refine ⟨create_refund_insufficient M t keys fee b,
    fun h hswap hkind =>
      sign_refund_insufficient M coopRound t keys fee b h hswap hkind,
    ?_, ?_⟩
  · intro u rest pb ht hp hv
    have hnlt : ¬ u.2.value < fee := by omega
    simp [create_claim, ht, hp, hnlt, hv, setInputWitness]
    rfl
  · intro u rest pb ht hp hv
    simp [create_claim, ht, hp, hv]
    rfl

theorem insufficient_funds_bound_witness :
    create_refund M0 refundTx3 0 1000 false =
      .error (.generic "Cannot sign Refund Tx because utxos_amount <= absolute_fees") ∧
    sign_refund M0 coop0 refundTx3 0 (.absolute 1000) false =
      .error (.generic "Cannot sign Refund Tx because utxos_amount <= absolute_fees") ∧
    (create_claim M0 claimTx0 0 p32 1000 true).map
        (fun tx => tx.output.map TxOut.value) = .ok [0] ∧
    create_claim M0 claimTx0 0 p32 1001 false =
      .error (.panic "attempt to subtract with overflow") := by
  refine ⟨?_, ?_, ?_, ?_⟩
  · exact (insufficient_funds_bound M0 coop0 refundTx3 0 1000 false p32).1
      (by decide)
  · exact (insufficient_funds_bound M0 coop0 refundTx3 0 1000 false p32).2.1
      (by decide) (by decide) (by decide)
  · exact (insufficient_funds_bound M0 coop0 claimTx0 0 1000 true p32).2.2.1
      u0 [] (List.replicate 32 (byteOf 0)) rfl rfl rfl
  · exact (insufficient_funds_bound M0 coop0 claimTx0 0 1001 false p32).2.2.2
      u0 [] (List.replicate 32 (byteOf 0)) rfl rfl (by decide)

/-- C6, counterexample: a claim transaction whose single utxo value
equals the absolute fee is not rejected — claim building performs no
insufficient-funds check and returns a transaction paying a zero-value
output instead of failing with the Generic error. -/
theorem claim_fee_equal_counterexample :
    (claimTx0.utxos.map fun u => u.2.value).sum = 1000 ∧
    (create_claim M0 claimTx0 0 p32 1000 false).map
        (fun tx => tx.output.map TxOut.value) = .ok [0] := by
  constructor <;> rfl

/-- C10, counterexample: with script locktime 3 the rebuilt refund leaf
encodes the locktime as `OP_PUSHNUM_3` — an opcode, not a byte push — so
the locktime recovery in `create_refund` finds nothing and the
non-cooperative refund fails instead of producing a transaction. -/
theorem small_locktime_counterexample :
    refundTx3.swap_script.locktime = 3 ∧
    sign_refund M0 coop0 refundTx3 0 (.absolute 10) false =
      .error (.protocol "Error getting timelock from refund script") := by
  constructor <;> rfl

theorem lor_shl_eq_add (a b k : Nat) (h : a < 2 ^ k) :
    a ||| (b <<< k) = a + 2 ^ k * b := by
  rw [Nat.shiftLeft_eq, Nat.mul_comm b (2 ^ k), Nat.lor_comm, Nat.add_comm]
  exact (Nat.mul_add_lt_is_or h b).symm

theorem leValGo_eq (bytes : List Byte) : ∀ (acc i : Nat),
    acc < 2 ^ (8 * i) →
    leValGo acc i bytes = acc + 2 ^ (8 * i) * bytesVal bytes := by
  induction bytes with
  | nil =>
    intro acc i _
    simp [leValGo, bytesVal]
  | cons b rest ih =>
    intro acc i h
    rw [leValGo, lor_shl_eq_add acc b.val (8 * i) h]
    have h2 : 2 ^ (8 * (i + 1)) = 2 ^ (8 * i) * 256 := by
      have : 8 * (i + 1) = 8 * i + 8 := by omega
      rw [this, pow_add]
      norm_num
    have hb : b.val < 256 := b.isLt
    have hmul : 2 ^ (8 * i) * b.val ≤ 2 ^ (8 * i) * 255 :=
      Nat.mul_le_mul_left _ (by omega)
    have hacc : acc + 2 ^ (8 * i) * b.val < 2 ^ (8 * (i + 1)) := by
      rw [h2]
      omega
    rw [ih _ _ hacc, bytesVal, h2]
    ring

theorem leVal_eq_bytesVal (bytes : List Byte) : leVal bytes = bytesVal bytes := by
  have h := leValGo_eq bytes 0 0 (by norm_num)
  simpa [leVal] using h

theorem bytesToU32Go_ok (bytes : List Byte) : ∀ (acc i : Nat),
    i + bytes.length ≤ 4 →
    bytesToU32Go acc i bytes = .ok (leValGo acc i bytes) := by
  induction bytes with
  | nil => intros; rfl
  | cons b rest ih =>
    intro acc i h
    rw [bytesToU32Go, leValGo]
    have hlen : rest.length + 1 = (b :: rest).length := by simp
    have hi : ¬ 32 ≤ 8 * i := by
      simp only [List.length_cons] at h
      omega
    rw [if_neg hi]
    exact ih _ _ (by simp only [List.length_cons] at h; omega)

/-- Under the `len < 5` guard of `create_refund`, the checked loop never
panics and computes the plain little-endian value. -/
theorem bytes_to_u32_eq_leVal (bytes : List Byte) (h : bytes.length ≤ 4) :
    bytes_to_u32_little_endian bytes = .ok (leVal bytes) := by
  unfold bytes_to_u32_little_endian leVal
  exact bytesToU32Go_ok bytes 0 0 (by omega)

theorem natLEBytesGo_congr : ∀ (m f1 f2 : Nat), m ≤ f1 → m ≤ f2 →
    natLEBytesGo m f1 = natLEBytesGo m f2 := by
  intro m
  induction m using Nat.strong_induction_on with
  | _ m ih =>
    intro f1 f2 h1 h2
    rcases f1 with _ | f1 <;> rcases f2 with _ | f2
    · rfl
    · have hm : m = 0 := by omega
      subst hm
      simp [natLEBytesGo]
    · have hm : m = 0 := by omega
      subst hm
      simp [natLEBytesGo]
    · by_cases h0 : m = 0
      · subst h0
        simp [natLEBytesGo]
      · rw [natLEBytesGo, natLEBytesGo, if_neg h0, if_neg h0]
        have hdiv := Nat.div_lt_self (Nat.pos_of_ne_zero h0) (by omega : 1 < 256)
        rw [ih (m / 256) hdiv f1 f2 (by omega) (by omega)]

theorem natLEBytes_eq (n : Nat) :
    natLEBytes n = if n = 0 then [] else byteOf n :: natLEBytes (n / 256) := by
  by_cases h0 : n = 0
  · subst h0
    rfl
  · rw [if_neg h0]
    rcases n with _ | k
    · exact absurd rfl h0
    · show natLEBytesGo (k + 1) (k + 1) = _
      rw [natLEBytesGo, if_neg h0]
      have hdiv := Nat.div_lt_self (by omega : 0 < k + 1) (by omega : 1 < 256)
      rw [natLEBytesGo_congr ((k + 1) / 256) k ((k + 1) / 256) (by omega)
        (Nat.le_refl _)]
      rfl

theorem natLEBytes_bytesVal (n : Nat) : bytesVal (natLEBytes n) = n := by
  induction n using Nat.strong_induction_on with
  | _ n ih =>
    rw [natLEBytes_eq]
    by_cases h : n = 0
    · simp [h, bytesVal]
    · rw [if_neg h, bytesVal]
      have hv : (byteOf n).val = n % 256 := rfl
      rw [hv, ih (n / 256) (Nat.div_lt_self (by omega) (by omega))]
      omega

theorem bytesVal_append_zero (l : List Byte) :
    bytesVal (l ++ [byteOf 0]) = bytesVal l := by
  induction l with
  | nil => rfl
  | cons b l ih => simp [bytesVal, ih]

theorem natLEBytes_length_le (k : Nat) : ∀ n, n < 256 ^ k →
    (natLEBytes n).length ≤ k := by
  induction k with
  | zero =>
    intro n h
    have hn : n = 0 := by simpa using h
    subst hn
    simp [natLEBytes, natLEBytesGo]
  | succ k ih =>
    intro n h
    rw [natLEBytes_eq]
    by_cases h0 : n = 0
    · simp [h0]
    · rw [if_neg h0]
      simp only [List.length_cons]
      have hdiv : n / 256 < 256 ^ k := by
        rw [Nat.div_lt_iff_lt_mul (by norm_num)]
        calc n < 256 ^ (k + 1) := h
          _ = 256 ^ k * 256 := by rw [pow_succ]
      exact Nat.succ_le_succ (ih _ hdiv)

theorem natLEBytes_length_lt (k : Nat) : ∀ n, 256 ^ k ≤ n →
    k < (natLEBytes n).length := by
  induction k with
  | zero =>
    intro n h
    rw [natLEBytes_eq]
    have h0 : ¬ n = 0 := by
      have h1 : (1 : Nat) ≤ n := by simpa using h
      omega
    simp [h0]
  | succ k ih =>
    intro n h
    rw [natLEBytes_eq]
    have hpos : 0 < 256 ^ (k + 1) := Nat.pos_pow_of_pos _ (by norm_num)
    have h0 : ¬ n = 0 := by omega
    rw [if_neg h0]
    simp only [List.length_cons]
    have hdiv : 256 ^ k ≤ n / 256 := by
      rw [Nat.le_div_iff_mul_le (by norm_num)]
      calc 256 ^ k * 256 = 256 ^ (k + 1) := (pow_succ 256 k).symm
        _ ≤ n := h
    exact Nat.succ_lt_succ (ih _ hdiv)

theorem natLEBytes_getLast_small (n : Nat) (h1 : 1 ≤ n) (h2 : n ≤ 255) :
    (natLEBytes n).getLast? = some (byteOf n) := by
  rw [natLEBytes_eq]
  have h0 : ¬ n = 0 := by omega
  rw [if_neg h0]
  have hz : natLEBytes (n / 256) = [] := by
    rw [natLEBytes_eq]
    simp [Nat.div_eq_of_lt (by omega : n < 256)]
  rw [hz]
  rfl

theorem natLEBytes_getLast_step (n : Nat) (h : 256 ≤ n) :
    (natLEBytes n).getLast? = (natLEBytes (n / 256)).getLast? := by
  conv_lhs => rw [natLEBytes_eq]
  have h0 : ¬ n = 0 := by omega
  rw [if_neg h0]
  have hne : natLEBytes (n / 256) ≠ [] := by
    rw [natLEBytes_eq]
    have hd : ¬ n / 256 = 0 := by
      have hd1 : 1 ≤ n / 256 := (Nat.le_div_iff_mul_le (by norm_num)).mpr (by omega)
      omega
    simp [hd]
  rcases hl : natLEBytes (n / 256) with _ | ⟨b, l⟩
  · exact absurd hl hne
  · rw [List.getLast?_cons_cons]

theorem natLEBytes_getLast_high (n : Nat) (h1 : 16777216 ≤ n)
    (h2 : n < 4294967296) :
    (natLEBytes n).getLast? = some (byteOf (n / 16777216)) := by
  have e1 : n / 256 / 256 = n / 65536 := by
    rw [Nat.div_div_eq_div_mul]
  have e2 : n / 65536 / 256 = n / 16777216 := by
    rw [Nat.div_div_eq_div_mul]
  have b1 : 256 ≤ n / 256 := (Nat.le_div_iff_mul_le (by norm_num)).mpr (by omega)
  have b2 : 256 ≤ n / 65536 := (Nat.le_div_iff_mul_le (by norm_num)).mpr (by omega)
  have b3 : 1 ≤ n / 16777216 := (Nat.le_div_iff_mul_le (by norm_num)).mpr (by omega)
  have b4 : n / 16777216 ≤ 255 := by
    have : n / 16777216 < 256 := by
      rw [Nat.div_lt_iff_lt_mul (by norm_num)]
      omega
    omega
  rw [natLEBytes_getLast_step n (by omega),
    natLEBytes_getLast_step (n / 256) b1, e1,
    natLEBytes_getLast_step (n / 65536) b2, e2,
    natLEBytes_getLast_small (n / 16777216) b3 b4]

theorem scriptIntEncode_val (n : Nat) : leVal (scriptIntEncode n) = n := by
  simp only [scriptIntEncode]
  rcases hL : (natLEBytes n).getLast? with _ | last
  · simp [hL, leVal_eq_bytesVal, natLEBytes_bytesVal]
  · by_cases hb : 128 ≤ last.val
    · simp [hL, hb, leVal_eq_bytesVal, bytesVal_append_zero, natLEBytes_bytesVal]
    · simp [hL, hb, leVal_eq_bytesVal, natLEBytes_bytesVal]

theorem scriptIntEncode_length_ge (n : Nat) :
    (natLEBytes n).length ≤ (scriptIntEncode n).length := by
  simp only [scriptIntEncode]
  rcases hL : (natLEBytes n).getLast? with _ | last
  · simp [hL]
  · by_cases hb : 128 ≤ last.val
    · simp [hL, hb]
    · simp [hL, hb]

theorem scriptIntEncode_len_iff (n : Nat) (h17 : 17 ≤ n) :
    (scriptIntEncode n).length < 5 ↔ n < 2147483648 := by
  constructor
  · intro hlen
    by_contra hge
    push_neg at hge
    by_cases h32 : n < 4294967296
    · -- between 2^31 and 2^32: four bytes with the top bit set, so a pad byte
      have hL := natLEBytes_getLast_high n (by omega) h32
      have hlen4 : 3 < (natLEBytes n).length := by
        refine natLEBytes_length_lt 3 n ?_
        have he : (256 : Nat) ^ 3 = 16777216 := by norm_num
        omega
      have hdivlt : n / 16777216 < 256 := by
        rw [Nat.div_lt_iff_lt_mul (by norm_num)]
        omega
      have hbit : 128 ≤ (byteOf (n / 16777216)).val := by
        have hvb : (byteOf (n / 16777216)).val = n / 16777216 % 256 := rfl
        rw [hvb, Nat.mod_eq_of_lt hdivlt]
        rw [Nat.le_div_iff_mul_le (by norm_num)]
        omega
      simp only [scriptIntEncode, hL, hbit, if_true, List.length_append,
        List.length_singleton] at hlen
      omega
    · -- at least 2^32: already at least five plain bytes
      have h5 : 4 < (natLEBytes n).length := by
        refine natLEBytes_length_lt 4 n ?_
        have he : (256 : Nat) ^ 4 = 4294967296 := by norm_num
        omega
      have hge2 := scriptIntEncode_length_ge n
      omega
  · intro hlt
    by_cases h24 : n < 16777216
    · have hle : (natLEBytes n).length ≤ 3 := by
        refine natLEBytes_length_le 3 n ?_
        have he : (256 : Nat) ^ 3 = 16777216 := by norm_num
        omega
      simp only [scriptIntEncode]
      rcases hL : (natLEBytes n).getLast? with _ | last
      · exact (by omega : (natLEBytes n).length < 5)
      · by_cases hb : 128 ≤ last.val
        · simp only [hb, if_true, List.length_append, List.length_singleton]
          omega
        · simp only [hb, if_false]
          omega
    · -- between 2^24 and 2^31: four plain bytes, top bit clear, no pad
      have hle : (natLEBytes n).length ≤ 4 := by
        refine natLEBytes_length_le 4 n ?_
        have he : (256 : Nat) ^ 4 = 4294967296 := by norm_num
        omega
      have hL := natLEBytes_getLast_high n (by omega) (by omega)
      have hdivlt : n / 16777216 < 128 := by
        rw [Nat.div_lt_iff_lt_mul (by norm_num)]
        omega
      have hbit : ¬ 128 ≤ (byteOf (n / 16777216)).val := by
        have hvb : (byteOf (n / 16777216)).val = n / 16777216 % 256 := rfl
        rw [hvb, Nat.mod_eq_of_lt (by omega)]
        omega
      simp only [scriptIntEncode, hL, hbit, if_false]
      omega

/-- Value of the locktime recovery on the rebuilt refund script: the
32-byte sender-key push never qualifies (`32 ≥ 5`), so the candidate is
the `push_int` encoding of the locktime — the empty push for `0`, an
`OP_PUSHNUM` opcode (no push at all) for `1..=16`, a byte push of fewer
than 5 bytes exactly for locktimes below `2^31`, and a 5-byte push
(skipped, hence `none`) from `2^31` on. -/
theorem refund_script_lock_time_eq (s : BtcSwapScript) :
    refund_script_lock_time s.refund_script =
      if s.locktime = 0 then some 0
      else if s.locktime ≤ 16 then none
      else if s.locktime < 2147483648 then some s.locktime
      else none := by
  unfold refund_script_lock_time BtcSwapScript.refund_script pushLockTime
  have hxo : s.sender_pubkey.xo.val.length = 32 := s.sender_pubkey.xo.property
  by_cases h0 : s.locktime = 0
  · simp [List.findSome?_cons, hxo, h0, pushInt, leVal, leValGo]
  · by_cases h16 : s.locktime ≤ 16
    · have hc : 1 ≤ s.locktime ∧ s.locktime ≤ 16 := ⟨by omega, h16⟩
      simp [List.findSome?_cons, hxo, pushInt, hc, h0, h16]
    · have hc : ¬ (1 ≤ s.locktime ∧ s.locktime ≤ 16) := by omega
      by_cases hlt : s.locktime < 2147483648
      · have hlen := (scriptIntEncode_len_iff s.locktime (by omega)).mpr hlt
        simp [List.findSome?_cons, hxo, pushInt, hc, h0, h16, hlt, hlen,
          scriptIntEncode_val]
      · have hlen : ¬ (scriptIntEncode s.locktime).length < 5 := by
          rw [scriptIntEncode_len_iff s.locktime (by omega)]
          omega
        simp [List.findSome?_cons, hxo, pushInt, hc, h0, h16, hlt, hlen]

theorem setInputWitness_lock_time (tx : Transaction) (i : Nat)
    (w : List (List Byte)) :
    (setInputWitness tx i w).lock_time = tx.lock_time := rfl

theorem refundFillGo_lock_time (M : SecpModel) (keys : Nat)
    (script : List Instr) (touts : List TxOut) (cb : List Byte) :
    ∀ (n : Nat) (tx : Transaction) (i : Nat),
    (refundFillGo M keys script touts cb tx i n).lock_time = tx.lock_time := by
  intro n
  induction n with
  | zero => intro tx i; rfl
  | succ n ih =>
    intro tx i
    rw [refundFillGo, ih, setInputWitness_lock_time]

theorem coopFillGo_lock_time
    (coopRound : Transaction → Nat → Except Err (List (List Byte))) :
    ∀ (n : Nat) (tx result : Transaction) (i : Nat),
    coopFillGo coopRound tx i n = .ok result →
    result.lock_time = tx.lock_time := by
  intro n
  induction n with
  | zero =>
    intro tx result i h
    rw [← Except.ok.inj h]
  | succ n ih =>
    intro tx result i h
    rw [coopFillGo] at h
    rcases hw : coopRound tx i with e | w <;> rw [hw] at h
    · exact Except.noConfusion h
    · have hstep := ih (setInputWitness tx i w) result (i + 1) h
      rw [hstep, setInputWitness_lock_time]

theorem create_refund_ok_lock_time (M : SecpModel) (t : BtcSwapTx)
    (keys fee : Nat) (b : Bool) (tx : Transaction)
    (h : create_refund M t keys fee b = .ok tx) :
    some tx.lock_time = refund_script_lock_time t.swap_script.refund_script := by
  simp only [create_refund] at h
  split at h
  · exact Except.noConfusion h
  · split at h
    · exact Except.noConfusion h
    · rename_i r heq
      rw [heq]
      split at h
      · rw [← Except.ok.inj h]
      · split at h
        · exact Except.noConfusion h
        · split at h
          · exact Except.noConfusion h
          · rw [← Except.ok.inj h, refundFillGo_lock_time]

/-- C10, amended: for a refund-kind swap transaction, the
non-cooperative `sign_refund` output carries exactly the locktime
extracted back out of the rebuilt refund leaf, which equals the script
locktime when `push_int` encodes it as a byte push of fewer than 5
bytes (locktime 0, or between 17 and `2^31 - 1`); for locktimes 1..=16
(an `OP_PUSHNUM` opcode, not a push) and `2^31` upwards (a 5-byte
push), `create_refund` finds no timelock and fails with the dedicated
`Protocol` error; the cooperative path clears `lock_time` to 0. -/
theorem refund_lock_time_matches_script (M : SecpModel)
    (coopRound : Transaction → Nat → Except Err (List (List Byte)))
    (t : BtcSwapTx) (keys fee : Nat)
    (hswap : t.swap_script.swap_type ≠ .reverseSubmarine)
    (hkind : t.kind ≠ .claim) :
    (∀ tx, sign_refund M coopRound t keys (.absolute fee) false = .ok tx →
      some tx.lock_time =
        refund_script_lock_time t.swap_script.refund_script ∧
      ((t.swap_script.locktime = 0 ∨
          (17 ≤ t.swap_script.locktime ∧ t.swap_script.locktime < 2 ^ 31)) →
        tx.lock_time = t.swap_script.locktime)) ∧
    (((1 ≤ t.swap_script.locktime ∧ t.swap_script.locktime ≤ 16) ∨
        2 ^ 31 ≤ t.swap_script.locktime) →
      ¬ (t.utxos.map fun u => u.2.value).sum ≤ fee →
      sign_refund M coopRound t keys (.absolute fee) false =
        .error (.protocol "Error getting timelock from refund script")) ∧
    (∀ tx, sign_refund M coopRound t keys (.absolute fee) true = .ok tx →
      tx.lock_time = 0) := by
  have hp31 : (2 : Nat) ^ 31 = 2147483648 := by norm_num
  refine ⟨?_, ?_, ?_⟩
  · intro tx h
    simp only [sign_refund, if_neg hswap, if_neg hkind, create_tx_with_fee] at h
    rcases hcr : create_refund M t keys fee false with e | tx' <;> rw [hcr] at h
    · exact Except.noConfusion h
    · have htx := Except.ok.inj h
      subst htx
      refine ⟨create_refund_ok_lock_time M t keys fee false tx' hcr, ?_⟩
      intro hrange
      have hlt := create_refund_ok_lock_time M t keys fee false tx' hcr
      rw [refund_script_lock_time_eq] at hlt
      rcases hrange with h0 | ⟨h17, hlt31⟩
      · rw [h0]
        simp [h0] at hlt
        exact hlt
      · have h2 : ¬ t.swap_script.locktime = 0 := by omega
        have h3 : ¬ t.swap_script.locktime ≤ 16 := by omega
        have h4 : t.swap_script.locktime < 2147483648 := by omega
        simp [h2, h3, h4] at hlt
        exact hlt
  · intro hrange hfee
    have hnone : refund_script_lock_time t.swap_script.refund_script = none := by
      rw [refund_script_lock_time_eq]
      rcases hrange with ⟨h1, h16⟩ | h31
      · have h0 : ¬ t.swap_script.locktime = 0 := by omega
        simp [h0, h16]
      · have h0 : ¬ t.swap_script.locktime = 0 := by omega
        have h16 : ¬ t.swap_script.locktime ≤ 16 := by omega
        have hge : ¬ t.swap_script.locktime < 2147483648 := by omega
        simp [h0, h16, hge]
    have hcr : create_refund M t keys fee false =
        .error (.protocol "Error getting timelock from refund script") := by
      simp only [create_refund, if_neg hfee, hnone]
    simp only [sign_refund, if_neg hswap, if_neg hkind, create_tx_with_fee, hcr]
    rfl
  · intro tx h
    simp only [sign_refund, if_neg hswap, if_neg hkind, create_tx_with_fee] at h
    rcases hcr : create_refund M t keys fee true with e | tx' <;> rw [hcr] at h
    · exact Except.noConfusion h
    · exact coopFillGo_lock_time coopRound _ _ tx 0 h

theorem refund_lock_time_matches_script_witness :
    some txRefund100.lock_time =
      refund_script_lock_time t100.swap_script.refund_script ∧
    txRefund100.lock_time = t100.swap_script.locktime ∧
    sign_refund M0 coop0 refundTx3 0 (.absolute 10) false =
      .error (.protocol "Error getting timelock from refund script") ∧
    txRefund100Coop.lock_time = 0 := by
  have h1 := (refund_lock_time_matches_script M0 coop0 t100 0 10
    (by decide) (by decide)).1 txRefund100 rfl
  have h2 := (refund_lock_time_matches_script M0 coop0 refundTx3 0 10
    (by decide) (by decide)).2.1 (Or.inl (by decide)) (by decide)
  have h3 := (refund_lock_time_matches_script M0 coop0 t100 0 10
    (by decide) (by decide)).2.2 txRefund100Coop rfl
  exact ⟨h1.1, h1.2 (Or.inr (by decide)), h2, h3⟩
